import Mathlib

/-!
Verification of the `clitools` TUI engine (src/clitools/screen.py).

The development shallowly embeds the parts of `screen.py` that the claims
are about:

* the flat screen buffer of the `Screen` class with its `_idx`,
  `__getitem__`, `__setitem__`, `fmt` and `clear` operations
  (Python lists become `List String`, Python ints become `ℤ`,
  fallible operations return `Except Unit _` where `.error ()` models a
  raised Python exception);
* the key decoder `get_key` (the POSIX branch) as a function from a finite
  stream of input units to an optional token and remaining stream
  (`none` models a read that would block);
* the focus-navigation part of `listen_keys`, together with `add` and
  `remove`, as functions on the `(objects, buttons, focus)` projection of
  the `Screen` state (the `display()` re-render invoked by those methods
  reads but never writes the object list, button list and focus, so it is
  dropped from this projection);
* `Point` and `Rectangle.display`, where a Python number is modelled as a
  rational value tagged with whether it is a Python `int` or a Python
  `float` (Python raises `TypeError` when a list is indexed by a `float`,
  which is observable behaviour here because `Point.col`/`Point.row`
  return un-truncated floats).
-/

/-- The buffer-related fields of the `Screen` class: current dimensions
and the flat row-major cell buffer.  Each cell is a string: normally one
character, but `Screen.fmt` prepends/appends ANSI style escapes. -/
structure ScreenBuf where
  cols : ℤ
  rows : ℤ
  buffer : List String
deriving DecidableEq, Repr

/-- Python list read `l[i]`: a nonnegative index reads from the front,
a negative index `i` reads `l[len(l) + i]`; `none` models `IndexError`. -/
def pyGet (l : List String) (i : ℤ) : Option String :=
  if 0 ≤ i then l[i.toNat]?
  else if 0 ≤ (l.length : ℤ) + i then l[((l.length : ℤ) + i).toNat]?
  else none

/-- Python list write `l[i] = v` with the same index convention as
`pyGet`; `none` models `IndexError`. -/
def pySet (l : List String) (i : ℤ) (v : String) : Option (List String) :=
  if 0 ≤ i then
    if i.toNat < l.length then some (l.set i.toNat v) else none
  else if 0 ≤ (l.length : ℤ) + i then
    if ((l.length : ℤ) + i).toNat < l.length then
      some (l.set ((l.length : ℤ) + i).toNat v)
    else none
  else none

/-- `Screen._idx` for Python `int` arguments: the buffer index of the
one-based position `(row, col)`, or `-1` when the position is out of the
current dimensions. -/
def ScreenBuf.idx (s : ScreenBuf) (row col : ℤ) : ℤ :=
  if 1 ≤ col ∧ col ≤ s.cols ∧ 1 ≤ row ∧ row ≤ s.rows then
    col - 1 + (row - 1) * s.cols
  else -1

/-- `Screen.__getitem__` for Python `int` keys: returns the cell at
`(row, col)`, or the empty string when `_idx` is negative. -/
def getItem (s : ScreenBuf) (row col : ℤ) : Except Unit String :=
  let idx := s.idx row col
  if 0 ≤ idx then
    match pyGet s.buffer idx with
    | some c => .ok c
    | none => .error ()
  else .ok ""

/-- `Screen.__setitem__` for Python `int` keys: when `_idx` is
nonnegative, stores `value[0]` (reading `value[0]` of an empty string
raises `IndexError`, modelled by `.error ()`); otherwise does nothing. -/
def setItem (s : ScreenBuf) (row col : ℤ) (value : String) : Except Unit ScreenBuf :=
  let idx := s.idx row col
  if 0 ≤ idx then
    match value.toList with
    | [] => .error ()
    | c :: _ =>
      match pySet s.buffer idx (String.mk [c]) with
      | some buf => .ok { s with buffer := buf }
      | none => .error ()
  else .ok s

/-- `Screen.fmt`: for a row inside `[1, rows]`, clamps `col` into
`[1, cols]` and `width` into `[1, cols - col + 1]`, then prepends the
style-on escape to the first cell of the range and appends the style-off
escape to the last cell.  Rows outside `[1, rows]` are ignored. -/
def fmtOp (s : ScreenBuf) (f : String) (row col width : ℤ) : Except Unit ScreenBuf :=
  if 1 ≤ row ∧ row ≤ s.rows then
    -- the source binds col = min(max(1, col), cols),
    -- width = min(max(1, width), cols - col + 1) and idx = _idx(row, col),
    -- then idx += width - 1; those pure bindings are inlined here
    match pyGet s.buffer (s.idx row (min (max 1 col) s.cols)) with
    | none => .error ()
    | some cell =>
      match pySet s.buffer (s.idx row (min (max 1 col) s.cols))
          ("\x1b[" ++ f ++ "m" ++ cell) with
      | none => .error ()
      | some buf1 =>
        match pyGet buf1 (s.idx row (min (max 1 col) s.cols) +
            min (max 1 width) (s.cols - min (max 1 col) s.cols + 1) - 1) with
        | none => .error ()
        | some cell2 =>
          match pySet buf1 (s.idx row (min (max 1 col) s.cols) +
              min (max 1 width) (s.cols - min (max 1 col) s.cols + 1) - 1)
              (cell2 ++ "\x1b[m") with
          | none => .error ()
          | some buf2 => .ok { s with buffer := buf2 }
  else .ok s

/-- `Screen.clear`: every cell becomes a single blank character. -/
def clearBuf (s : ScreenBuf) : ScreenBuf :=
  { s with buffer := s.buffer.map (fun _ => " ") }

/-- The index of an in-bounds position is below `cols * rows`. -/
lemma idx_lt_of_bounds {cols rows row col : ℤ} (h1 : 1 ≤ col) (h2 : col ≤ cols)
    (h3 : 1 ≤ row) (h4 : row ≤ rows) :
    col - 1 + (row - 1) * cols < cols * rows := by
  have h5 : (row - 1) * cols ≤ (rows - 1) * cols :=
    mul_le_mul_of_nonneg_right (by omega) (by omega)
  have h6 : (rows - 1) * cols = cols * rows - cols := by ring
  omega

/-- An in-bounds position yields the row-major index, which is a valid
buffer index when the buffer has length `cols * rows`. -/
lemma idx_spec_in {s : ScreenBuf} {row col : ℤ}
    (hlen : (s.buffer.length : ℤ) = s.cols * s.rows)
    (h1 : 1 ≤ row) (h2 : row ≤ s.rows) (h3 : 1 ≤ col) (h4 : col ≤ s.cols) :
    s.idx row col = col - 1 + (row - 1) * s.cols ∧
    0 ≤ s.idx row col ∧ (s.idx row col).toNat < s.buffer.length := by
  have he : s.idx row col = col - 1 + (row - 1) * s.cols := by
    unfold ScreenBuf.idx
    exact if_pos ⟨h3, h4, h1, h2⟩
  have hmul : 0 ≤ (row - 1) * s.cols :=
    mul_nonneg (by omega) (by omega)
  have hlt := idx_lt_of_bounds h3 h4 h1 h2
  refine ⟨he, by omega, ?_⟩
  omega

/-- An out-of-bounds position yields index `-1`. -/
lemma idx_spec_out {s : ScreenBuf} {row col : ℤ}
    (h : ¬(1 ≤ row ∧ row ≤ s.rows ∧ 1 ≤ col ∧ col ≤ s.cols)) :
    s.idx row col = -1 := by
  unfold ScreenBuf.idx
  exact if_neg (by tauto)

/-- Claim C1: for a buffer of length `cols * rows` with positive
dimensions, writing a single character at an in-bounds position and then
reading the same position returns exactly that character, while at an
out-of-bounds position reading returns the empty string and writing
leaves the state unchanged; neither operation signals an error. -/
theorem C1_set_get_roundtrip (s : ScreenBuf) (row col : ℤ) (c : Char)
    (hc : 1 ≤ s.cols) (hr : 1 ≤ s.rows)
    (hlen : (s.buffer.length : ℤ) = s.cols * s.rows) :
    ((1 ≤ row ∧ row ≤ s.rows ∧ 1 ≤ col ∧ col ≤ s.cols) →
      setItem s row col (String.mk [c]) =
        .ok { s with buffer := s.buffer.set (s.idx row col).toNat (String.mk [c]) } ∧
      getItem { s with buffer := s.buffer.set (s.idx row col).toNat (String.mk [c]) } row col =
        .ok (String.mk [c])) ∧
    (¬(1 ≤ row ∧ row ≤ s.rows ∧ 1 ≤ col ∧ col ≤ s.cols) →
      getItem s row col = .ok "" ∧ setItem s row col (String.mk [c]) = .ok s) := by
  constructor
  · rintro ⟨h1, h2, h3, h4⟩
    obtain ⟨he, h0, hltb⟩ := idx_spec_in hlen h1 h2 h3 h4
    constructor
    · simp [setItem, pySet, h0, hltb, String.toList]
    · have hidx : ScreenBuf.idx { s with buffer := s.buffer.set (s.idx row col).toNat (String.mk [c]) } row col = s.idx row col := by
        unfold ScreenBuf.idx
        rfl
      simp only [getItem, hidx, h0, if_true, if_pos h0]
      have : pyGet (s.buffer.set (s.idx row col).toNat (String.mk [c])) (s.idx row col) = some (String.mk [c]) := by
        unfold pyGet
        rw [if_pos h0]
        exact List.getElem?_set_eq_of_lt _ (by simpa using hltb)
      rw [this]
  · intro h
    have he := idx_spec_out h
    constructor
    · simp [getItem, he]
    · simp [setItem, he]

/-- Non-vacuity witness for C1 at a concrete screen and position. -/
theorem C1_witness :
    (setItem ⟨2, 2, [" ", " ", " ", " "]⟩ 2 1 (String.mk ['x']) =
      .ok { cols := 2, rows := 2,
            buffer := ([" ", " ", " ", " "] : List String).set
              ((ScreenBuf.idx ⟨2, 2, [" ", " ", " ", " "]⟩ 2 1).toNat) (String.mk ['x']) }) ∧
    (getItem ⟨3, 1, [" ", " ", " "]⟩ 0 5 = .ok "") := by
  constructor
  · exact ((C1_set_get_roundtrip ⟨2, 2, [" ", " ", " ", " "]⟩ 2 1 'x'
      (by decide) (by decide) (by decide)).1 (by decide)).1
  · exact ((C1_set_get_roundtrip ⟨3, 1, [" ", " ", " "]⟩ 0 5 'x'
      (by decide) (by decide) (by decide)).2 (by decide)).1

/-- Claim C10: `__setitem__` stores only the first character of the given
string; at an in-bounds position it signals `IndexError` exactly when the
string is empty, while at an out-of-bounds position it is a no-op for
every string, the empty one included (the bounds check precedes the
character access). -/
theorem C10_setitem_first_char (s : ScreenBuf) (row col : ℤ)
    (hlen : (s.buffer.length : ℤ) = s.cols * s.rows) :
    (∀ (c : Char) (rest : List Char),
      (1 ≤ row ∧ row ≤ s.rows ∧ 1 ≤ col ∧ col ≤ s.cols) →
      setItem s row col (String.mk (c :: rest)) =
        .ok { s with buffer := s.buffer.set (s.idx row col).toNat (String.mk [c]) }) ∧
    ((1 ≤ row ∧ row ≤ s.rows ∧ 1 ≤ col ∧ col ≤ s.cols) →
      setItem s row col (String.mk []) = .error ()) ∧
    (∀ (v : String), ¬(1 ≤ row ∧ row ≤ s.rows ∧ 1 ≤ col ∧ col ≤ s.cols) →
      setItem s row col v = .ok s) := by
  refine ⟨?_, ?_, ?_⟩
  · rintro c rest ⟨h1, h2, h3, h4⟩
    obtain ⟨he, h0, hltb⟩ := idx_spec_in hlen h1 h2 h3 h4
    simp [setItem, pySet, h0, hltb, String.toList]
  · rintro ⟨h1, h2, h3, h4⟩
    obtain ⟨he, h0, hltb⟩ := idx_spec_in hlen h1 h2 h3 h4
    simp [setItem, h0, String.toList]
  · intro v h
    have he := idx_spec_out h
    simp [setItem, he]

/-- Non-vacuity witness for C10 at a concrete screen and position. -/
theorem C10_witness :
    (setItem ⟨2, 1, [" ", " "]⟩ 1 2 (String.mk ['a', 'b', 'c']) =
      .ok { cols := 2, rows := 1,
            buffer := ([" ", " "] : List String).set
              ((ScreenBuf.idx ⟨2, 1, [" ", " "]⟩ 1 2).toNat) (String.mk ['a']) }) ∧
    (setItem ⟨2, 1, [" ", " "]⟩ 1 2 (String.mk []) = .error ()) ∧
    (setItem ⟨2, 1, [" ", " "]⟩ 1 3 (String.mk []) = .ok ⟨2, 1, [" ", " "]⟩) := by
  refine ⟨?_, ?_, ?_⟩
  · exact (C10_setitem_first_char ⟨2, 1, [" ", " "]⟩ 1 2 (by decide)).1 'a' ['b', 'c']
      (by decide)
  · exact (C10_setitem_first_char ⟨2, 1, [" ", " "]⟩ 1 2 (by decide)).2.1 (by decide)
  · exact (C10_setitem_first_char ⟨2, 1, [" ", " "]⟩ 1 3 (by decide)).2.2 (String.mk [])
      (by decide)

/-- Equality of `Except` results is decidable, so concrete runs of the
fallible operations can be checked by evaluation. -/
instance {ε α : Type} [DecidableEq ε] [DecidableEq α] : DecidableEq (Except ε α)
  | .error a, .error b =>
    if h : a = b then .isTrue (by rw [h])
    else .isFalse (by intro hh; cases hh; exact h rfl)
  | .error _, .ok _ => .isFalse (by intro h; cases h)
  | .ok _, .error _ => .isFalse (by intro h; cases h)
  | .ok a, .ok b =>
    if h : a = b then .isTrue (by rw [h])
    else .isFalse (by intro hh; cases hh; exact h rfl)

/-- Counterexample to claim C5 as stated: on a 2x1 screen, `fmt` wraps
cell (1,1) with the reverse-video escapes; a subsequent single-character
write to that cell then replaces the whole cell, so the wrapper is gone
even though `clear` was never called. -/
theorem C5_counterexample :
    fmtOp ⟨2, 1, [" ", " "]⟩ "7" 1 1 1 = .ok ⟨2, 1, ["\x1b[7m \x1b[m", " "]⟩ ∧
    setItem ⟨2, 1, ["\x1b[7m \x1b[m", " "]⟩ 1 1 "x" = .ok ⟨2, 1, ["x", " "]⟩ ∧
    '\x1b' ∈ "\x1b[7m \x1b[m".toList ∧ '\x1b' ∉ "x".toList := by
  decide

/-- Amended claim C5: a single-character write to an in-bounds cell
replaces that cell entirely — including any style wrapper `fmt` put
there — while cells other than the written one (and hence their
wrappers) are untouched; `clear` resets every cell to a blank. -/
theorem C5_write_replaces_cell (s : ScreenBuf) (row col : ℤ) (c : Char)
    (hlen : (s.buffer.length : ℤ) = s.cols * s.rows)
    (hb : 1 ≤ row ∧ row ≤ s.rows ∧ 1 ≤ col ∧ col ≤ s.cols) :
    setItem s row col (String.mk [c]) =
      .ok { s with buffer := s.buffer.set (s.idx row col).toNat (String.mk [c]) } ∧
    (s.buffer.set (s.idx row col).toNat (String.mk [c]))[(s.idx row col).toNat]? =
      some (String.mk [c]) ∧
    (∀ j, j ≠ (s.idx row col).toNat →
      (s.buffer.set (s.idx row col).toNat (String.mk [c]))[j]? = s.buffer[j]?) ∧
    (∀ j, j < (clearBuf s).buffer.length → (clearBuf s).buffer[j]? = some " ") := by
  obtain ⟨h1, h2, h3, h4⟩ := hb
  obtain ⟨he, h0, hltb⟩ := idx_spec_in hlen h1 h2 h3 h4
  refine ⟨?_, ?_, ?_, ?_⟩
  · simp [setItem, pySet, h0, hltb, String.toList]
  · exact List.getElem?_set_eq_of_lt _ hltb
  · intro j hj
    exact List.getElem?_set_ne (by omega)
  · intro j hj
    simp only [clearBuf] at hj ⊢
    simp only [List.length_map] at hj
    rw [List.getElem?_map, List.getElem?_eq_getElem hj]
    rfl

/-- Non-vacuity witness for the amended C5 at the wrapped concrete state. -/
theorem C5_witness :
    setItem ⟨2, 1, ["\x1b[7m \x1b[m", " "]⟩ 1 1 (String.mk ['x']) =
      .ok { cols := 2, rows := 1,
            buffer := (["\x1b[7m \x1b[m", " "] : List String).set
              ((ScreenBuf.idx ⟨2, 1, ["\x1b[7m \x1b[m", " "]⟩ 1 1).toNat)
              (String.mk ['x']) } :=
  (C5_write_replaces_cell ⟨2, 1, ["\x1b[7m \x1b[m", " "]⟩ 1 1 'x'
    (by decide) (by decide)).1

/-- `pyGet` at a valid nonnegative index reads the cell. -/
lemma pyGet_in {l : List String} {i : ℤ} (h0 : 0 ≤ i) (hlt : i.toNat < l.length) :
    pyGet l i = some (l.getD i.toNat "") := by
  unfold pyGet
  rw [if_pos h0, List.getElem?_eq_getElem hlt]
  rw [List.getD_eq_getElem?_getD, List.getElem?_eq_getElem hlt]
  rfl

/-- `pySet` at a valid nonnegative index replaces the cell. -/
lemma pySet_in {l : List String} {i : ℤ} (h0 : 0 ≤ i)
    (hlt : i.toNat < l.length) (v : String) :
    pySet l i v = some (l.set i.toNat v) := by
  unfold pySet
  rw [if_pos h0, if_pos hlt]

/-- Claim C6: with positive dimensions and a buffer of length
`cols * rows`, `fmt` ignores rows outside `[1, rows]`; otherwise it clamps
the column into `[1, cols]` and the width into `[1, cols - col + 1]`
(a zero or negative width clamps to 1), prepends the style-on escape to
the first cell of the clamped range and appends the style-off escape to
its last cell, and never signals an error. -/
theorem C6_fmt_clamps (s : ScreenBuf) (f : String) (row col width : ℤ)
    (hc : 1 ≤ s.cols) (hr : 1 ≤ s.rows)
    (hlen : (s.buffer.length : ℤ) = s.cols * s.rows) :
    (¬(1 ≤ row ∧ row ≤ s.rows) → fmtOp s f row col width = .ok s) ∧
    (∀ col2 width2 idx,
      col2 = min (max 1 col) s.cols →
      width2 = min (max 1 width) (s.cols - col2 + 1) →
      idx = col2 - 1 + (row - 1) * s.cols →
      (1 ≤ col2 ∧ col2 ≤ s.cols ∧ 1 ≤ width2 ∧ width2 ≤ s.cols - col2 + 1 ∧
        (width ≤ 0 → width2 = 1)) ∧
      ((1 ≤ row ∧ row ≤ s.rows) →
        fmtOp s f row col width =
          .ok { s with buffer := ((s.buffer.set idx.toNat
                ("\x1b[" ++ f ++ "m" ++ s.buffer.getD idx.toNat "")).set
              (idx + width2 - 1).toNat
              ((s.buffer.set idx.toNat
                  ("\x1b[" ++ f ++ "m" ++ s.buffer.getD idx.toNat "")).getD
                (idx + width2 - 1).toNat "" ++ "\x1b[m")) })) := by
  constructor
  · intro h
    unfold fmtOp
    exact if_neg h
  · intro col2 width2 idx hcol2 hwidth2 hidx
    have hb1 : 1 ≤ col2 := by omega
    have hb2 : col2 ≤ s.cols := by omega
    have hb3 : 1 ≤ width2 := by omega
    have hb4 : width2 ≤ s.cols - col2 + 1 := by omega
    refine ⟨⟨hb1, hb2, hb3, hb4, by omega⟩, ?_⟩
    rintro ⟨hr1, hr2⟩
    obtain ⟨he, h0, hltb⟩ := idx_spec_in hlen hr1 hr2 hb1 hb2
    have h0i : 0 ≤ idx := by rw [hidx, ← he]; exact h0
    have hlti : idx.toNat < s.buffer.length := by rw [hidx, ← he]; exact hltb
    -- bounds for the last cell of the clamped range
    have h0' : 0 ≤ idx + width2 - 1 := by omega
    have hlt2 : (idx + width2 - 1).toNat < s.buffer.length := by
      have hshape : idx + width2 - 1 = (col2 + width2 - 1) - 1 + (row - 1) * s.cols := by
        omega
      have hcb : col2 + width2 - 1 ≤ s.cols := by omega
      have := @idx_lt_of_bounds s.cols s.rows row (col2 + width2 - 1)
        (by omega) hcb hr1 hr2
      omega
    have hset : (idx + width2 - 1).toNat <
        (s.buffer.set idx.toNat
          ("\x1b[" ++ f ++ "m" ++ s.buffer.getD idx.toNat "")).length := by
      rw [List.length_set]; exact hlt2
    unfold fmtOp
    rw [if_pos ⟨hr1, hr2⟩, ← hcol2, ← hwidth2, he, ← hidx]
    simp only [pyGet_in h0i hlti, pySet_in h0i hlti, pyGet_in h0' hset,
      pySet_in h0' hset]

/-- Non-vacuity witness for C6: a zero-width request on a 3x1 screen
clamps to width 1 and wraps cell (1,1) without an error. -/
theorem C6_witness :
    fmtOp ⟨3, 1, [" ", " ", " "]⟩ "7" 1 0 0 =
      .ok ⟨3, 1, ["\x1b[7m \x1b[m", " ", " "]⟩ := by
  have h := ((C6_fmt_clamps ⟨3, 1, [" ", " ", " "]⟩ "7" 1 0 0 (by decide) (by decide)
    (by decide)).2 1 1 0 (by decide) (by decide) (by decide)).2 (by decide)
  rw [h]
  decide

/-- The sequence-body loop of `get_key` after an escape introducer plus
'[' or 'O': keep reading and appending units until a unit is alphabetic
or '~', then return the accumulated token and the remaining stream.
`none` models a read that blocks on an exhausted stream.  Python's
`str.isalpha` is modelled by `Char.isAlpha`; the terminators of all the
recognized sequences are ASCII. -/
def readBody (acc : List Char) : List Char → Option (List Char × List Char)
  | [] => none
  | c :: rest =>
    if c.isAlpha || c = '~' then some (acc ++ [c], rest)
    else readBody (acc ++ [c]) rest

/-- `get_key` (POSIX branch): read one unit; if it is the escape
introducer, read a second unit, and if that is '[' or 'O' keep reading
the sequence body; the decoded token is returned together with the
unread remainder of the stream. -/
def getKey : List Char → Option (List Char × List Char)
  | [] => none
  | c :: rest =>
    if c = '\x1b' then
      match rest with
      | [] => none
      | c2 :: rest2 =>
        if c2 = '[' ∨ c2 = 'O' then readBody [c, c2] rest2
        else some ([c, c2], rest2)
    else some ([c], rest)

/-- The sequence-body loop consumes at least one unit. -/
lemma readBody_length {tok rest : List Char} :
    ∀ (s acc : List Char), readBody acc s = some (tok, rest) →
      rest.length < s.length := by
  intro s
  induction s with
  | nil => intro acc h; simp [readBody] at h
  | cons c cs ih =>
    intro acc h
    by_cases hc : (c.isAlpha || c = '~') = true
    · rw [readBody, if_pos hc] at h
      obtain ⟨-, hrest⟩ := Prod.mk.injEq .. ▸ Option.some.injEq .. ▸ h
      simp [← hrest]
    · rw [readBody, if_neg hc] at h
      have := ih (acc ++ [c]) h
      simp only [List.length_cons]
      omega

/-- `get_key` consumes at least one unit of the stream. -/
lemma getKey_length {tok rest : List Char} :
    ∀ s : List Char, getKey s = some (tok, rest) → rest.length < s.length := by
  intro s h
  match s with
  | [] => simp [getKey] at h
  | c :: cs =>
    by_cases hc : c = '\x1b'
    · simp only [getKey] at h
      rw [if_pos hc] at h
      match cs with
      | [] => simp at h
      | c2 :: cs2 =>
        replace h : (if c2 = '[' ∨ c2 = 'O' then readBody [c, c2] cs2
            else some ([c, c2], cs2)) = some (tok, rest) := h
        by_cases h2 : c2 = '[' ∨ c2 = 'O'
        · rw [if_pos h2] at h
          have := readBody_length cs2 [c, c2] h
          simp only [List.length_cons]
          omega
        · rw [if_neg h2] at h
          obtain ⟨-, hrest⟩ := Prod.mk.injEq .. ▸ Option.some.injEq .. ▸ h
          simp only [← hrest, List.length_cons]
          omega
    · simp only [getKey] at h
      rw [if_neg hc] at h
      obtain ⟨-, hrest⟩ := Prod.mk.injEq .. ▸ Option.some.injEq .. ▸ h
      simp [← hrest]

/-- Repeated application of `get_key` to a finite stream: the list of
tokens decoded before the stream is exhausted. -/
def decodeTokens (s : List Char) : List (List Char) :=
  match h : getKey s with
  | none => []
  | some (tok, rest) => tok :: decodeTokens rest
termination_by s.length
decreasing_by exact getKey_length s h

/-- Unfolding `decodeTokens` when the stream is exhausted. -/
lemma decodeTokens_none {s : List Char} (h : getKey s = none) :
    decodeTokens s = [] := by
  rw [decodeTokens]
  split
  · rfl
  · rename_i tok rest heq
    rw [h] at heq
    cases heq

/-- Unfolding `decodeTokens` when a token is decoded. -/
lemma decodeTokens_some {s tok rest : List Char}
    (h : getKey s = some (tok, rest)) :
    decodeTokens s = tok :: decodeTokens rest := by
  rw [decodeTokens]
  split
  · rename_i heq
    rw [h] at heq
    cases heq
  · rename_i tok2 rest2 heq
    rw [h] at heq
    obtain ⟨h1, h2⟩ := Prod.mk.injEq .. ▸ Option.some.injEq .. ▸ heq
    rw [h1, h2]

/-- A unit other than the escape introducer is emitted immediately. -/
lemma getKey_literal {c : Char} (rest : List Char) (hc : c ≠ '\x1b') :
    getKey (c :: rest) = some ([c], rest) := by
  simp only [getKey]
  rw [if_neg hc]

/-- The sequence body runs through non-terminator units and stops at the
first alphabetic-or-tilde unit. -/
lemma readBody_run :
    ∀ (mid : List Char) (acc : List Char) (t : Char) (rest : List Char),
      (∀ u ∈ mid, ¬(u.isAlpha = true ∨ u = '~')) →
      (t.isAlpha = true ∨ t = '~') →
      readBody acc (mid ++ t :: rest) = some (acc ++ mid ++ [t], rest) := by
  intro mid
  induction mid with
  | nil =>
    intro acc t rest _ ht
    have hcond : (t.isAlpha || decide (t = '~')) = true := by
      rcases ht with h | h <;> simp [h]
    simp only [List.nil_append, readBody, hcond, if_true]
    simp
  | cons u us ih =>
    intro acc t rest hmid ht
    have hu : ¬((u.isAlpha || decide (u = '~')) = true) := by
      have := hmid u (by simp)
      simpa using this
    simp only [List.cons_append, readBody]
    rw [if_neg hu]
    simp only [List.append_eq]
    rw [ih (acc ++ [u]) t rest (fun v hv => hmid v (by simp [hv])) ht]
    simp

/-- After the escape introducer, `get_key` branches on whether the second
unit opens a CSI/SS3 sequence. -/
lemma getKey_escaped (c2 : Char) (rest : List Char) :
    getKey ('\x1b' :: c2 :: rest) =
      if c2 = '[' ∨ c2 = 'O' then readBody ['\x1b', c2] rest
      else some (['\x1b', c2], rest) := rfl

/-- Claim C3: the key decoder is the specified state machine: a
non-escape unit is emitted immediately as a one-unit literal token; after
an escape, a unit other than '[' and 'O' yields exactly the two units
read as one token; otherwise units are read and accumulated until one is
alphabetic or '~', and the full accumulated sequence is one token; and
the decoder keeps no state across tokens — decoding after any prefix of
literal (non-escape) units yields exactly the literal tokens followed by
the decoding of the rest of the stream. -/
theorem C3_decoder_state_machine :
    (∀ (c : Char) (rest : List Char), c ≠ '\x1b' →
      getKey (c :: rest) = some ([c], rest)) ∧
    (∀ (c2 : Char) (rest : List Char), c2 ≠ '[' → c2 ≠ 'O' →
      getKey ('\x1b' :: c2 :: rest) = some (['\x1b', c2], rest)) ∧
    (∀ (c2 t : Char) (mid rest : List Char), (c2 = '[' ∨ c2 = 'O') →
      (∀ u ∈ mid, ¬(u.isAlpha = true ∨ u = '~')) →
      (t.isAlpha = true ∨ t = '~') →
      getKey ('\x1b' :: c2 :: (mid ++ t :: rest)) =
        some ('\x1b' :: c2 :: (mid ++ [t]), rest)) ∧
    (∀ (pre s : List Char), (∀ c ∈ pre, c ≠ '\x1b') →
      decodeTokens (pre ++ s) = pre.map (fun c => [c]) ++ decodeTokens s) := by
  refine ⟨fun c rest hc => getKey_literal rest hc, ?_, ?_, ?_⟩
  · intro c2 rest h1 h2
    rw [getKey_escaped, if_neg (by tauto)]
  · intro c2 t mid rest h2 hmid ht
    rw [getKey_escaped, if_pos h2, readBody_run mid ['\x1b', c2] t rest hmid ht]
    simp
  · intro pre
    induction pre with
    | nil => intro s _; simp
    | cons c pre2 ih =>
      intro s hpre
      have hc : c ≠ '\x1b' := hpre c (by simp)
      rw [List.cons_append, decodeTokens_some (getKey_literal (pre2 ++ s) hc),
        ih s (fun d hd => hpre d (by simp [hd]))]
      simp

/-- Non-vacuity witness for C3: each branch of the state machine at a
concrete input, and statelessness across two literal tokens before an
arrow-up sequence. -/
theorem C3_witness :
    getKey ['a'] = some (['a'], []) ∧
    getKey ['\x1b', 'x', 'q'] = some (['\x1b', 'x'], ['q']) ∧
    getKey ['\x1b', '[', '1', '~'] = some (['\x1b', '[', '1', '~'], []) ∧
    decodeTokens ('a' :: 'b' :: '\x1b' :: '[' :: 'A' :: []) =
      [['a'], ['b']] ++ decodeTokens ['\x1b', '[', 'A'] := by
  refine ⟨?_, ?_, ?_, ?_⟩
  · exact C3_decoder_state_machine.1 'a' [] (by decide)
  · exact C3_decoder_state_machine.2.1 'x' ['q'] (by decide) (by decide)
  · exact C3_decoder_state_machine.2.2.1 '[' '~' ['1'] [] (Or.inl rfl)
      (by decide) (by decide)
  · exact C3_decoder_state_machine.2.2.2 ['a', 'b'] ['\x1b', '[', 'A'] (by decide)

/-- A `Button` as used by the focus navigator: its one-based text
position and its text.  The `id` field models Python object identity —
`Button` has no `__eq__`, so two distinct objects compare unequal even
with identical contents. -/
structure Button where
  id : ℕ
  row : ℤ
  col : ℤ
  text : List Char
deriving DecidableEq, Repr

/-- `Button.center`: `(row, col + (len(text) - 1) // 2)` with Python
floor division. -/
def Button.center (b : Button) : ℤ × ℤ :=
  (b.row, b.col + ((b.text.length : ℤ) - 1).fdiv 2)

/-- A displayable object as registered with the screen: a button or any
other displayable (Text or Rectangle), identified by object identity. -/
inductive Disp where
  | button (b : Button)
  | other (id : ℕ)
deriving DecidableEq, Repr

/-- The `(objects, buttons, focus)` projection of the `Screen` state:
the fields read and written by `add`, `remove` and the key loop.  The
`display()` re-render they trigger reads but never writes these fields,
so it does not appear in this projection. -/
structure NavState where
  objects : List Disp
  buttons : List Button
  focus : Option Button
deriving DecidableEq, Repr

/-- `Screen.add`: appends to the object list and, for a button, to the
button list. -/
def addObj (s : NavState) (d : Disp) : NavState :=
  { s with
    objects := s.objects ++ [d],
    buttons :=
      match d with
      | .button b => s.buttons ++ [b]
      | .other _ => s.buttons }

/-- `Screen.remove`: removes the first occurrence from the object list
and, for a button, from the button list; `none` models the `ValueError`
Python raises when the object is not registered.  The focus field is not
touched. -/
def removeObj (s : NavState) (d : Disp) : Option NavState :=
  if d ∈ s.objects then
    match d with
    | .button b =>
      if b ∈ s.buttons then
        some { s with objects := s.objects.erase d, buttons := s.buttons.erase b }
      else none
    | .other _ => some { s with objects := s.objects.erase d }
  else none

/-- The decoded arrow tokens and the other tokens `listen_keys` tests. -/
def keyUp : List Char := ['\x1b', '[', 'A']

/-- Arrow-down token. -/
def keyDown : List Char := ['\x1b', '[', 'B']

/-- Arrow-right token. -/
def keyRight : List Char := ['\x1b', '[', 'C']

/-- Arrow-left token. -/
def keyLeft : List Char := ['\x1b', '[', 'D']

/-- The double-escape quit token. -/
def quitKey : List Char := ['\x1b', '\x1b']

/-- The carriage-return token. -/
def keyEnter : List Char := ['\r']

/-- The four directional tokens. -/
def arrowKeys : List (List Char) := [keyUp, keyDown, keyRight, keyLeft]

/-- `col_factor` from the if/elif chain of `listen_keys` (only applied
to arrow tokens). -/
def dirCol (key : List Char) : ℤ :=
  if key = keyUp then 0
  else if key = keyDown then 0
  else if key = keyRight then 1
  else -1

/-- `row_factor` from the if/elif chain of `listen_keys` (only applied
to arrow tokens). -/
def dirRow (key : List Char) : ℤ :=
  if key = keyUp then -1
  else if key = keyDown then 1
  else 0

/-- The score the navigator computes for a candidate button `b` relative
to the focused button, in direction `(colF, rowF)`:
`(colF * col_diff + rowF * row_diff) / (col_diff² + row_diff² + 1)`
where `col_diff` is the column difference of the centers and `row_diff`
is twice the row difference.  Python float arithmetic on these integer
quantities is exact, so the score is modelled in `ℚ`. -/
def weightOf (f b : Button) (colF rowF : ℤ) : ℚ :=
  ((colF * (b.center.2 - f.center.2) + rowF * (2 * (b.center.1 - f.center.1)) : ℤ) : ℚ) /
    (((b.center.2 - f.center.2) * (b.center.2 - f.center.2) +
      (2 * (b.center.1 - f.center.1)) * (2 * (b.center.1 - f.center.1)) + 1 : ℤ) : ℚ)

/-- The candidate loop of `listen_keys`: iterates over the buttons with
their indices, skipping the focused button, and keeps the pair
`(best_weight, choice)`, updating it whenever a weight strictly exceeds
the best so far (initially `(0, -1)`). -/
def scanButtons (f : Button) (colF rowF : ℤ) :
    List Button → ℕ → ℚ × ℤ → ℚ × ℤ
  | [], _, acc => acc
  | b :: bs, i, (bw, ch) =>
    if b ≠ f then
      if bw < weightOf f b colF rowF then
        scanButtons f colF rowF bs (i + 1) (weightOf f b colF rowF, (i : ℤ))
      else scanButtons f colF rowF bs (i + 1) (bw, ch)
    else scanButtons f colF rowF bs (i + 1) (bw, ch)

/-- One iteration of the `listen_keys` loop body on the navigation
state, for a non-quit token: an arrow token either moves the focus to
the best positively-scoring candidate, keeps it, or (with no focus yet)
focuses the first registered button; Enter invokes `press()` on the
focused button, which is a no-op; all other tokens do nothing. -/
def navKey (s : NavState) (key : List Char) : NavState :=
  if key = keyUp ∨ key = keyDown ∨ key = keyRight ∨ key = keyLeft then
    match s.focus with
    | some f =>
      if 0 ≤ (scanButtons f (dirCol key) (dirRow key) s.buttons 0 (0, -1)).2 then
        { s with focus := some (s.buttons.getD
            (scanButtons f (dirCol key) (dirRow key) s.buttons 0 (0, -1)).2.toNat f) }
      else s
    | none =>
      match s.buttons with
      | [] => s
      | b :: _ => { s with focus := some b }
  else s

/-- The `listen_keys` read loop over a finite stream of decoded tokens:
`some s` means the loop hit the quit token and terminated in state `s`;
`none` means the stream was exhausted with the loop still running
(blocked on the next read). -/
def runKeys (s : NavState) : List (List Char) → Option NavState
  | [] => none
  | k :: rest => if k = quitKey then some s else runKeys (navKey s k) rest

/-- One step of the candidate loop. -/
lemma scan_cons (f : Button) (cF rF : ℤ) (b : Button) (bs : List Button)
    (i : ℕ) (bw : ℚ) (ch : ℤ) :
    scanButtons f cF rF (b :: bs) i (bw, ch) =
      if b ≠ f then
        if bw < weightOf f b cF rF then
          scanButtons f cF rF bs (i + 1) (weightOf f b cF rF, (i : ℤ))
        else scanButtons f cF rF bs (i + 1) (bw, ch)
      else scanButtons f cF rF bs (i + 1) (bw, ch) := rfl

/-- Characterization of the candidate loop: the final best weight
dominates the initial one and every candidate weight in the scanned
suffix, and the loop either returns its accumulator unchanged or selects
the first candidate index attaining the strictly increased final best
weight. -/
lemma scan_spec (f : Button) (cF rF : ℤ) :
    ∀ (bs : List Button) (i : ℕ) (bw : ℚ) (ch : ℤ),
      bw ≤ (scanButtons f cF rF bs i (bw, ch)).1 ∧
      (∀ j, j < bs.length → bs.getD j f ≠ f →
        weightOf f (bs.getD j f) cF rF ≤ (scanButtons f cF rF bs i (bw, ch)).1) ∧
      (scanButtons f cF rF bs i (bw, ch) = (bw, ch) ∨
        ∃ j, j < bs.length ∧ bs.getD j f ≠ f ∧
          (scanButtons f cF rF bs i (bw, ch)).2 = (i : ℤ) + (j : ℤ) ∧
          (scanButtons f cF rF bs i (bw, ch)).1 = weightOf f (bs.getD j f) cF rF ∧
          bw < weightOf f (bs.getD j f) cF rF ∧
          (∀ j2, j2 < j → bs.getD j2 f ≠ f →
            weightOf f (bs.getD j2 f) cF rF < weightOf f (bs.getD j f) cF rF)) := by
  intro bs
  induction bs with
  | nil =>
    intro i bw ch
    refine ⟨le_refl _, ?_, Or.inl rfl⟩
    intro j hj
    simp at hj
  | cons b bs ih =>
    intro i bw ch
    by_cases hb : b ≠ f
    · by_cases hw : bw < weightOf f b cF rF
      · rw [scan_cons, if_pos hb, if_pos hw]
        obtain ⟨a1, a2, a3⟩ := ih (i + 1) (weightOf f b cF rF) (i : ℤ)
        refine ⟨le_of_lt (lt_of_lt_of_le hw a1), ?_, ?_⟩
        · intro j hj hcand
          match j with
          | 0 => simpa using a1
          | j2 + 1 =>
            have := a2 j2 (by simpa using hj) (by simpa using hcand)
            simpa using this
        · right
          rcases a3 with heq | ⟨j, hjlen, hjcand, hch, hbw, hlt, hprior⟩
          · refine ⟨0, by simp, by simpa using hb, ?_, by rw [heq]; simp, ?_, ?_⟩
            · rw [heq]
              simp
            · simpa using hw
            · intro j2 hj2
              omega
          · refine ⟨j + 1, by simpa using hjlen, by simpa using hjcand, ?_, ?_, ?_, ?_⟩
            · rw [hch]
              push_cast
              ring
            · simpa using hbw
            · calc bw < weightOf f b cF rF := hw
                _ < _ := by simpa using hlt
            · intro j2 hj2 hcand2
              match j2 with
              | 0 =>
                simp only [List.getD_cons_zero]
                calc weightOf f b cF rF < weightOf f (bs.getD j f) cF rF := by
                      simpa using hlt
                  _ = weightOf f ((b :: bs).getD (j + 1) f) cF rF := by simp
              | j3 + 1 =>
                have := hprior j3 (by omega) (by simpa using hcand2)
                simpa using this
      · rw [scan_cons, if_pos hb, if_neg hw]
        obtain ⟨a1, a2, a3⟩ := ih (i + 1) bw ch
        refine ⟨a1, ?_, ?_⟩
        · intro j hj hcand
          match j with
          | 0 =>
            simp only [List.getD_cons_zero]
            exact le_trans (not_lt.mp hw) a1
          | j2 + 1 =>
            have := a2 j2 (by simpa using hj) (by simpa using hcand)
            simpa using this
        · rcases a3 with heq | ⟨j, hjlen, hjcand, hch, hbw, hlt, hprior⟩
          · exact Or.inl heq
          · right
            refine ⟨j + 1, by simpa using hjlen, by simpa using hjcand, ?_, ?_, hlt, ?_⟩
            · rw [hch]
              push_cast
              ring
            · simpa using hbw
            · intro j2 hj2 hcand2
              match j2 with
              | 0 =>
                simp only [List.getD_cons_zero]
                calc weightOf f b cF rF ≤ bw := not_lt.mp hw
                  _ < _ := by simpa using hlt
              | j3 + 1 =>
                have := hprior j3 (by omega) (by simpa using hcand2)
                simpa using this
    · rw [scan_cons, if_neg hb]
      push_neg at hb
      obtain ⟨a1, a2, a3⟩ := ih (i + 1) bw ch
      refine ⟨a1, ?_, ?_⟩
      · intro j hj hcand
        match j with
        | 0 =>
          rw [List.getD_cons_zero, hb] at hcand
          exact absurd rfl hcand
        | j2 + 1 =>
          have := a2 j2 (by simpa using hj) (by simpa using hcand)
          simpa using this
      · rcases a3 with heq | ⟨j, hjlen, hjcand, hch, hbw, hlt, hprior⟩
        · exact Or.inl heq
        · right
          refine ⟨j + 1, by simpa using hjlen, by simpa using hjcand, ?_, ?_, hlt, ?_⟩
          · rw [hch]
            push_cast
            ring
          · simpa using hbw
          · intro j2 hj2 hcand2
            match j2 with
            | 0 =>
              rw [List.getD_cons_zero, hb] at hcand2
              exact absurd rfl hcand2
            | j3 + 1 =>
              have := hprior j3 (by omega) (by simpa using hcand2)
              simpa using this

/-- `navKey` on an arrow token with a focused button. -/
lemma navKey_arrow_focus {s : NavState} {k : List Char} {f : Button}
    (hk : k = keyUp ∨ k = keyDown ∨ k = keyRight ∨ k = keyLeft)
    (hf : s.focus = some f) :
    navKey s k =
      if 0 ≤ (scanButtons f (dirCol k) (dirRow k) s.buttons 0 (0, -1)).2 then
        { s with focus := some (s.buttons.getD
            (scanButtons f (dirCol k) (dirRow k) s.buttons 0 (0, -1)).2.toNat f) }
      else s := by
  unfold navKey
  rw [if_pos hk, hf]

/-- `navKey` on an arrow token with no focused button. -/
lemma navKey_arrow_nofocus {s : NavState} {k : List Char}
    (hk : k = keyUp ∨ k = keyDown ∨ k = keyRight ∨ k = keyLeft)
    (hf : s.focus = none) :
    navKey s k =
      (match s.buttons with
       | [] => s
       | b :: _ => { s with focus := some b }) := by
  unfold navKey
  rw [if_pos hk, hf]

/-- Example button with center column 5 (claim C2's concrete scenario). -/
def exButton5 : Button := ⟨0, 2, 5, ['x']⟩

/-- Example button with center column 15. -/
def exButton15 : Button := ⟨1, 2, 15, ['x']⟩

/-- Example button with center column 25. -/
def exButton25 : Button := ⟨2, 2, 25, ['x']⟩

/-- The three example buttons in registration order. -/
def exButtons : List Button := [exButton5, exButton15, exButton25]

/-- Example state with the column-15 button focused. -/
def exState15 : NavState :=
  ⟨[.button exButton5, .button exButton15, .button exButton25], exButtons,
    some exButton15⟩

/-- Example state with the column-5 button focused. -/
def exState5 : NavState :=
  ⟨[.button exButton5, .button exButton15, .button exButton25], exButtons,
    some exButton5⟩

/-- The empty-list step of the candidate loop. -/
lemma scan_nil (f : Button) (cF rF : ℤ) (i : ℕ) (acc : ℚ × ℤ) :
    scanButtons f cF rF [] i acc = acc := rfl

/-- Right from the column-15 button scans to `(10/101, 2)`. -/
lemma scanRight15 :
    scanButtons exButton15 (dirCol keyRight) (dirRow keyRight)
      exState15.buttons 0 (0, -1) = (10/101, 2) := by
  have w5 : weightOf exButton15 exButton5 (dirCol keyRight) (dirRow keyRight)
      = -10/101 := by
    simp [weightOf, Button.center, exButton5, exButton15, dirCol, dirRow,
      keyRight, keyUp, keyDown]
  have w25 : weightOf exButton15 exButton25 (dirCol keyRight) (dirRow keyRight)
      = 10/101 := by
    simp [weightOf, Button.center, exButton25, exButton15, dirCol, dirRow,
      keyRight, keyUp, keyDown]
  rw [show exState15.buttons = [exButton5, exButton15, exButton25] from rfl]
  rw [scan_cons, if_pos (by decide), if_neg (by rw [w5]; norm_num)]
  rw [scan_cons, if_neg (by decide)]
  rw [scan_cons, if_pos (by decide), if_pos (by rw [w25]; norm_num)]
  rw [scan_nil, w25]
  norm_num

/-- Left from the column-15 button scans to `(10/101, 0)`. -/
lemma scanLeft15 :
    scanButtons exButton15 (dirCol keyLeft) (dirRow keyLeft)
      exState15.buttons 0 (0, -1) = (10/101, 0) := by
  have w5 : weightOf exButton15 exButton5 (dirCol keyLeft) (dirRow keyLeft)
      = 10/101 := by
    simp [weightOf, Button.center, exButton5, exButton15, dirCol, dirRow,
      keyLeft, keyUp, keyDown, keyRight]
  have w25 : weightOf exButton15 exButton25 (dirCol keyLeft) (dirRow keyLeft)
      = -10/101 := by
    simp [weightOf, Button.center, exButton25, exButton15, dirCol, dirRow,
      keyLeft, keyUp, keyDown, keyRight]
  rw [show exState15.buttons = [exButton5, exButton15, exButton25] from rfl]
  rw [scan_cons, if_pos (by decide), if_pos (by rw [w5]; norm_num)]
  rw [scan_cons, if_neg (by decide)]
  rw [scan_cons, if_pos (by decide), if_neg (by rw [w25, w5]; norm_num)]
  rw [scan_nil, w5]
  norm_num

/-- Right from the column-5 button scans to `(10/101, 1)`. -/
lemma scanRight5 :
    scanButtons exButton5 (dirCol keyRight) (dirRow keyRight)
      exState5.buttons 0 (0, -1) = (10/101, 1) := by
  have w15 : weightOf exButton5 exButton15 (dirCol keyRight) (dirRow keyRight)
      = 10/101 := by
    simp [weightOf, Button.center, exButton15, exButton5, dirCol, dirRow,
      keyRight, keyUp, keyDown]
  have w25 : weightOf exButton5 exButton25 (dirCol keyRight) (dirRow keyRight)
      = 20/401 := by
    simp [weightOf, Button.center, exButton25, exButton5, dirCol, dirRow,
      keyRight, keyUp, keyDown]
  rw [show exState5.buttons = [exButton5, exButton15, exButton25] from rfl]
  rw [scan_cons, if_neg (by decide)]
  rw [scan_cons, if_pos (by decide), if_pos (by rw [w15]; norm_num)]
  rw [scan_cons, if_pos (by decide), if_neg (by rw [w25, w15]; norm_num)]
  rw [scan_nil, w15]
  norm_num

/-- Right from the column-15 button focuses the column-25 button. -/
lemma navRight15 :
    navKey exState15 keyRight = { exState15 with focus := some exButton25 } := by
  rw [navKey_arrow_focus (by decide) rfl, scanRight15,
    if_pos (by norm_num)]
  decide

/-- Left from the column-15 button focuses the column-5 button. -/
lemma navLeft15 :
    navKey exState15 keyLeft = { exState15 with focus := some exButton5 } := by
  rw [navKey_arrow_focus (by decide) rfl, scanLeft15,
    if_pos (by norm_num)]
  decide

/-- Right from the column-5 button focuses the column-15 button. -/
lemma navRight5 :
    navKey exState5 keyRight = { exState5 with focus := some exButton15 } := by
  rw [navKey_arrow_focus (by decide) rfl, scanRight5,
    if_pos (by norm_num)]
  decide

/-- Claim C2: a directional key with no focus focuses the
first-registered button (or nothing when no button exists); with a
focus, the loop selects the candidate with the strictly greatest score
only if that score is positive — ties going to the first-registered
candidate — and otherwise leaves the focus unchanged; and in the
three-button example at columns 5/15/25, Right from 15 goes to 25, Left
from 15 goes to 5, and Right from 5 goes to 15. -/
theorem C2_directional_navigation :
    (∀ (s : NavState) (k : List Char), k ∈ arrowKeys → s.focus = none →
      (s.buttons = [] → navKey s k = s) ∧
      (∀ b bs, s.buttons = b :: bs → navKey s k = { s with focus := some b })) ∧
    (∀ (s : NavState) (k : List Char) (f : Button), k ∈ arrowKeys →
      s.focus = some f →
      ((navKey s k = s ∧
        ∀ j, j < s.buttons.length → s.buttons.getD j f ≠ f →
          weightOf f (s.buttons.getD j f) (dirCol k) (dirRow k) ≤ 0) ∨
       (∃ j, j < s.buttons.length ∧ s.buttons.getD j f ≠ f ∧
          0 < weightOf f (s.buttons.getD j f) (dirCol k) (dirRow k) ∧
          navKey s k = { s with focus := some (s.buttons.getD j f) } ∧
          (∀ j2, j2 < j → s.buttons.getD j2 f ≠ f →
            weightOf f (s.buttons.getD j2 f) (dirCol k) (dirRow k) <
              weightOf f (s.buttons.getD j f) (dirCol k) (dirRow k)) ∧
          (∀ j2, j2 < s.buttons.length → s.buttons.getD j2 f ≠ f →
            weightOf f (s.buttons.getD j2 f) (dirCol k) (dirRow k) ≤
              weightOf f (s.buttons.getD j f) (dirCol k) (dirRow k))))) ∧
    navKey exState15 keyRight = { exState15 with focus := some exButton25 } ∧
    navKey exState15 keyLeft = { exState15 with focus := some exButton5 } ∧
    navKey exState5 keyRight = { exState5 with focus := some exButton15 } := by
  refine ⟨?_, ?_, navRight15, navLeft15, navRight5⟩
  · intro s k hk hf
    have hk2 : k = keyUp ∨ k = keyDown ∨ k = keyRight ∨ k = keyLeft := by
      simpa [arrowKeys] using hk
    constructor
    · intro hbs
      rw [navKey_arrow_nofocus hk2 hf, hbs]
    · intro b bs hbs
      rw [navKey_arrow_nofocus hk2 hf, hbs]
  · intro s k f hk hf
    have hk2 : k = keyUp ∨ k = keyDown ∨ k = keyRight ∨ k = keyLeft := by
      simpa [arrowKeys] using hk
    obtain ⟨a1, a2, a3⟩ := scan_spec f (dirCol k) (dirRow k) s.buttons 0 0 (-1)
    rcases a3 with heq | ⟨j, hjlen, hjcand, hch, hbw, hlt, hprior⟩
    · left
      constructor
      · rw [navKey_arrow_focus hk2 hf, heq, if_neg (by norm_num)]
      · intro j hj hcand
        have := a2 j hj hcand
        rw [heq] at this
        exact this
    · right
      refine ⟨j, hjlen, hjcand, hlt, ?_, hprior, ?_⟩
      · rw [navKey_arrow_focus hk2 hf, if_pos (by rw [hch]; positivity), hch]
        norm_num
      · intro j2 hj2 hcand2
        have := a2 j2 hj2 hcand2
        rw [hbw] at this
        exact this

/-- Non-vacuity witness for C2: an arrow key with no focus selects the
single registered button. -/
theorem C2_witness :
    navKey ⟨[.button exButton5], [exButton5], none⟩ keyUp =
      ⟨[.button exButton5], [exButton5], some exButton5⟩ :=
  (C2_directional_navigation.1 ⟨[.button exButton5], [exButton5], none⟩ keyUp
    (by decide) rfl).2 exButton5 [] rfl

/-- ASCII printable characters, 0x20 through 0x7e. -/
def isPrintable (c : Char) : Bool := 0x20 ≤ c.toNat && c.toNat ≤ 0x7e

/-- Counterexample to claim C7 as stated: '[' is a printable character,
yet a single escape followed by '[' is not decoded as a two-unit token —
the decoder keeps reading and emits the whole three-unit arrow sequence
as one token. -/
theorem C7_counterexample :
    isPrintable '[' = true ∧
    getKey ['\x1b', '[', 'A'] = some (['\x1b', '[', 'A'], []) ∧
    (['\x1b', '[', 'A'] : List Char).length = 3 := by
  decide

/-- `navKey` on a token that is none of the four arrows. -/
lemma navKey_other {s : NavState} {k : List Char}
    (hk : ¬(k = keyUp ∨ k = keyDown ∨ k = keyRight ∨ k = keyLeft)) :
    navKey s k = s := by
  unfold navKey
  rw [if_neg hk]

/-- Amended claim C7: the token loop terminates exactly when it meets
the double-escape quit token; a single escape followed by a printable
character other than '[' and 'O' is decoded as one two-unit token
distinct from the quit token; and every non-quit token leaves the loop
running. -/
theorem C7_quit_terminates :
    (∀ (s : NavState) (keys : List (List Char)),
      (runKeys s keys).isSome = true ↔ quitKey ∈ keys) ∧
    (∀ (c : Char) (rest : List Char), isPrintable c = true →
      c ≠ '[' → c ≠ 'O' →
      getKey ('\x1b' :: c :: rest) = some (['\x1b', c], rest) ∧
      ['\x1b', c] ≠ quitKey) ∧
    (∀ (s : NavState) (k : List Char) (keys : List (List Char)),
      k ≠ quitKey → runKeys s (k :: keys) = runKeys (navKey s k) keys) := by
  refine ⟨?_, ?_, ?_⟩
  · intro s keys
    induction keys generalizing s with
    | nil => simp [runKeys]
    | cons k rest ih =>
      by_cases hk : k = quitKey
      · simp [runKeys, hk]
      · simp only [runKeys, if_neg hk, ih, List.mem_cons]
        constructor
        · exact fun h => Or.inr h
        · rintro (h | h)
          · exact absurd h.symm hk
          · exact h
  · intro c rest hp h1 h2
    have hesc : c ≠ '\x1b' := by
      intro h
      rw [h] at hp
      exact absurd hp (by decide)
    constructor
    · rw [getKey_escaped, if_neg (by tauto)]
    · intro heq
      have : c = '\x1b' := by
        have := List.cons.injEq '\x1b' [c] '\x1b' ['\x1b'] ▸ heq
        simpa [quitKey] using heq
      exact hesc this
  · intro s k keys hk
    simp [runKeys, hk]

/-- Non-vacuity witness for the amended C7 at concrete tokens. -/
theorem C7_witness :
    (runKeys ⟨[], [], none⟩ [['q'], quitKey]).isSome = true ∧
    getKey ['\x1b', 'x'] = some (['\x1b', 'x'], []) ∧
    runKeys ⟨[], [], none⟩ (['q'] :: []) = runKeys (navKey ⟨[], [], none⟩ ['q']) [] := by
  refine ⟨?_, ?_, ?_⟩
  · exact (C7_quit_terminates.1 ⟨[], [], none⟩ [['q'], quitKey]).2 (by decide)
  · exact (C7_quit_terminates.2.1 'x' [] (by decide) (by decide) (by decide)).1
  · exact C7_quit_terminates.2.2 ⟨[], [], none⟩ ['q'] [] (by decide)

/-- The focus, when set, refers to a registered button. -/
def focusRegistered (s : NavState) : Prop :=
  ∀ b, s.focus = some b → b ∈ s.buttons

/-- A valid index read with a default is a member of the list. -/
lemma getD_mem {l : List Button} {j : ℕ} (h : j < l.length) (d : Button) :
    l.getD j d ∈ l := by
  rw [List.getD_eq_getElem?_getD, List.getElem?_eq_getElem h]
  exact List.getElem_mem h

/-- Counterexample to claim C8 as stated: removing the focused (only)
button leaves the focus still pointing at the removed button — the focus
is neither cleared nor moved to a remaining registered button. -/
theorem C8_counterexample :
    removeObj ⟨[.button exButton5], [exButton5], some exButton5⟩
        (.button exButton5) = some ⟨[], [], some exButton5⟩ ∧
    (some exButton5 ≠ (none : Option Button)) ∧
    exButton5 ∉ ([] : List Button) := by
  decide

/-- Amended claim C8: the focus invariant holds for `add` and for
directional navigation — whenever the focus is set it refers to a
registered button and navigation never changes the button list — but
`Screen.remove` does not update the focus: after removing the focused
button the focus still holds that button. -/
theorem C8_focus_invariant :
    (∀ (s : NavState) (k : List Char), focusRegistered s →
      focusRegistered (navKey s k) ∧ (navKey s k).buttons = s.buttons) ∧
    (∀ (s : NavState) (d : Disp), focusRegistered s →
      focusRegistered (addObj s d)) ∧
    (∀ (s : NavState) (b : Button) (s2 : NavState), s.focus = some b →
      removeObj s (.button b) = some s2 →
      s2.focus = some b ∧ s2.buttons = s.buttons.erase b) := by
  refine ⟨?_, ?_, ?_⟩
  · intro s k hreg
    by_cases hk : k = keyUp ∨ k = keyDown ∨ k = keyRight ∨ k = keyLeft
    · cases hfoc : s.focus with
      | none =>
        rw [navKey_arrow_nofocus hk hfoc]
        cases hbs : s.buttons with
        | nil => exact ⟨hreg, hbs⟩
        | cons b bs =>
          refine ⟨?_, rfl⟩
          intro b2 hb2
          obtain hb2 := Option.some.injEq .. ▸ hb2
          rw [← hb2]
          exact List.mem_cons_self b bs
      | some f =>
        rw [navKey_arrow_focus hk hfoc]
        obtain ⟨a1, a2, a3⟩ := scan_spec f (dirCol k) (dirRow k) s.buttons 0 0 (-1)
        rcases a3 with heq | ⟨j, hjlen, hjcand, hch, hbw, hlt, hprior⟩
        · rw [heq, if_neg (by norm_num)]
          exact ⟨hreg, rfl⟩
        · rw [if_pos (by rw [hch]; positivity)]
          refine ⟨?_, rfl⟩
          intro b2 hb2
          obtain hb2 := Option.some.injEq .. ▸ hb2
          rw [← hb2, hch]
          have htn : (((0 : ℕ) : ℤ) + (j : ℤ)).toNat = j := by omega
          rw [htn]
          exact getD_mem hjlen f
    · rw [navKey_other hk]
      exact ⟨hreg, rfl⟩
  · intro s d hreg b hb
    have hfoc : s.focus = some b := hb
    have hmem := hreg b hfoc
    unfold addObj
    cases d with
    | button b2 => exact List.mem_append_left _ hmem
    | other i => exact hmem
  · intro s b s2 hfoc hrem
    have hrem2 : (if Disp.button b ∈ s.objects then
        (if b ∈ s.buttons then
          some { s with objects := s.objects.erase (Disp.button b),
                        buttons := s.buttons.erase b }
        else none)
      else none) = some s2 := hrem
    split at hrem2
    · split at hrem2
      · injection hrem2 with h
        rw [← h]
        exact ⟨hfoc, rfl⟩
      · cases hrem2
    · cases hrem2

/-- Non-vacuity witness for the amended C8: removing the focused button
from a two-button screen keeps the stale focus. -/
theorem C8_witness :
    (⟨[.button exButton15], [exButton15], some exButton5⟩ : NavState).focus
        = some exButton5 ∧
    (⟨[.button exButton15], [exButton15], some exButton5⟩ : NavState).buttons
        = ([exButton5, exButton15].erase exButton5) := by
  have h := C8_focus_invariant.2.2
    ⟨[.button exButton5, .button exButton15], [exButton5, exButton15],
      some exButton5⟩ exButton5
    ⟨[.button exButton15], [exButton15], some exButton5⟩ rfl (by decide)
  exact h

/-- A Python number: its exact rational value tagged with whether it is
a Python `int` or a Python `float`.  Rectangle coordinates mix both —
`Point` stores normalized floats while the screen dimensions are ints —
and Python raises `TypeError` when a list is indexed by a `float`, so
the tag is observable behaviour. -/
structure PyNum where
  val : ℚ
  isInt : Bool
deriving DecidableEq, Repr

instance : Add PyNum := ⟨fun a b => ⟨a.val + b.val, a.isInt && b.isInt⟩⟩

instance : Sub PyNum := ⟨fun a b => ⟨a.val - b.val, a.isInt && b.isInt⟩⟩

instance : Mul PyNum := ⟨fun a b => ⟨a.val * b.val, a.isInt && b.isInt⟩⟩

/-- Addition of Python numbers: exact on values, `float` wins. -/
lemma PyNum.add_def (a b : PyNum) :
    a + b = ⟨a.val + b.val, a.isInt && b.isInt⟩ := rfl

/-- Subtraction of Python numbers. -/
lemma PyNum.sub_def (a b : PyNum) :
    a - b = ⟨a.val - b.val, a.isInt && b.isInt⟩ := rfl

/-- Multiplication of Python numbers. -/
lemma PyNum.mul_def (a b : PyNum) :
    a * b = ⟨a.val * b.val, a.isInt && b.isInt⟩ := rfl

/-- A Python `int` literal or value. -/
def PyNum.int (n : ℤ) : PyNum := ⟨(n : ℚ), true⟩

/-- A Python `float` value (exact rationals model the floats appearing
here: small dyadic fractions on which float arithmetic is exact). -/
def PyNum.float (q : ℚ) : PyNum := ⟨q, false⟩

/-- `Point`: a pair of normalized coordinates as stored by the source
(floats in `[0, 1]`, though nothing stops a caller passing ints). -/
structure Point where
  y : PyNum
  x : PyNum
deriving DecidableEq, Repr

/-- `Point.col`: `x * (cols - 1) + 1`, with no rounding or truncation —
despite the source's `-> int` annotation the result is a float whenever
`x` is. -/
def Point.col (p : Point) (cols : ℤ) : PyNum :=
  p.x * PyNum.int (cols - 1) + PyNum.int 1

/-- `Point.row`: `y * (rows - 1) + 1`, again with no rounding. -/
def Point.row (p : Point) (rows : ℤ) : PyNum :=
  p.y * PyNum.int (rows - 1) + PyNum.int 1

/-- `Screen._idx` on arbitrary Python-number keys, as invoked by
`Rectangle.display` through `__setitem__`: the comparisons are by value,
and the arithmetic propagates float-ness into the resulting index. -/
def idxPy (s : ScreenBuf) (row col : PyNum) : PyNum :=
  if 1 ≤ col.val ∧ col.val ≤ (s.cols : ℚ) ∧ 1 ≤ row.val ∧ row.val ≤ (s.rows : ℚ) then
    col - PyNum.int 1 + (row - PyNum.int 1) * PyNum.int s.cols
  else PyNum.int (-1)

/-- `Screen.__setitem__` on Python-number keys: as in the `int`-key
model, but indexing the buffer with a `float` raises `TypeError`
(modelled by `.error ()`), even when the float is integral. -/
def setItemPy (s : ScreenBuf) (row col : PyNum) (value : String) : Except Unit ScreenBuf :=
  if 0 ≤ (idxPy s row col).val then
    match value.toList with
    | [] => .error ()
    | c :: _ =>
      if (idxPy s row col).isInt then
        if (idxPy s row col).val.num.toNat < s.buffer.length then
          .ok { s with
            buffer := s.buffer.set (idxPy s row col).val.num.toNat (String.mk [c]) }
        else .error ()
      else .error ()
  else .ok s

/-- Python `range(a, b)` as a list of ints; `range` raises `TypeError`
on float arguments (modelled by `.error ()`). -/
def pyRange (a b : PyNum) : Except Unit (List ℤ) :=
  if a.isInt && b.isInt then
    .ok ((List.range (b.val.num - a.val.num).toNat).map (fun i => a.val.num + (i : ℤ)))
  else .error ()

/-- `Rectangle.display`: resolves both corner points against the current
dimensions, then draws the four corners, the horizontal edges and the
vertical edges in source order; each write goes through `__setitem__`
and each loop bound through `range`, so a float-resolved coordinate
raises at the first in-range write. -/
def rectDisplay (s : ScreenBuf) (tl br : Point) : Except Unit ScreenBuf := do
  let x := tl.col s.cols
  let y := tl.row s.rows
  let w := br.col s.cols - x + PyNum.int 1
  let h := br.row s.rows - y + PyNum.int 1
  let s1 ← setItemPy s y x "╔"
  let r1 ← pyRange (PyNum.int 1) (w - PyNum.int 1)
  let s2 ← r1.foldlM (fun st i => setItemPy st y (x + PyNum.int i) "═") s1
  let s3 ← setItemPy s2 y (x + w - PyNum.int 1) "╗"
  let r2 ← pyRange (PyNum.int 1) (h - PyNum.int 1)
  let s4 ← r2.foldlM (fun st j => do
      let st1 ← setItemPy st (y + PyNum.int j) x "║"
      setItemPy st1 (y + PyNum.int j) (x + w - PyNum.int 1) "║") s3
  let s5 ← setItemPy s4 (y + h - PyNum.int 1) x "╚"
  let r3 ← pyRange (PyNum.int 1) (w - PyNum.int 1)
  let s6 ← r3.foldlM (fun st i => setItemPy st (y + h - PyNum.int 1) (x + PyNum.int i) "═") s5
  setItemPy s6 (y + h - PyNum.int 1) (x + w - PyNum.int 1) "╝"

/-- Claim C4 (code bug): `Point.row` and `Point.col` perform no rounding
or truncation — for the float point `(0.5, 0.5)` with 4 rows the result
is the float `5/2`, which equals no integer, contradicting the claimed
rounded-integer result (and the source's own `-> int` annotations); the
endpoint cases do hold exactly: `(0,0)` maps to row/column 1 and `(1,1)`
to `rows`/`cols`. -/
theorem C4_point_no_rounding :
    (Point.row ⟨PyNum.float (1/2), PyNum.float (1/2)⟩ 4).val = 5/2 ∧
    (Point.row ⟨PyNum.float (1/2), PyNum.float (1/2)⟩ 4).isInt = false ∧
    (∀ q : ℤ, (Point.row ⟨PyNum.float (1/2), PyNum.float (1/2)⟩ 4).val ≠ (q : ℚ)) ∧
    (∀ cols rows : ℤ,
      (Point.col ⟨PyNum.int 0, PyNum.int 0⟩ cols).val = 1 ∧
      (Point.row ⟨PyNum.int 0, PyNum.int 0⟩ rows).val = 1 ∧
      (Point.col ⟨PyNum.int 1, PyNum.int 1⟩ cols).val = (cols : ℚ) ∧
      (Point.row ⟨PyNum.int 1, PyNum.int 1⟩ rows).val = (rows : ℚ)) := by
  have hval : (Point.row ⟨PyNum.float (1/2), PyNum.float (1/2)⟩ 4).val = 5/2 := by
    simp [Point.row, PyNum.mul_def, PyNum.add_def, PyNum.int, PyNum.float]
    norm_num
  refine ⟨hval, rfl, ?_, ?_⟩
  · intro q h
    rw [hval, div_eq_iff (by norm_num)] at h
    have h2 : (5 : ℤ) = q * 2 := by exact_mod_cast h
    omega
  · intro cols rows
    refine ⟨?_, ?_, ?_, ?_⟩ <;>
      simp [Point.col, Point.row, PyNum.mul_def, PyNum.add_def, PyNum.int]

/-- Claim C9 (code bug on the rectangle half): with zero registered
buttons every key is a no-op on the navigation state; a degenerate 1x1
rectangle with integer-resolved corners does skip its empty loop ranges
and completes without error; but a degenerate rectangle whose corners
resolve to fractional floats (normalized coordinates 0.5 on a 10x10
screen, resolved width and height 1 < 2) makes `Rectangle.display`
raise `TypeError` — the un-truncated float from `Point.col`/`Point.row`
is used as a list index — so `display` does not complete without
error. -/
theorem C9_degenerate_geometry :
    rectDisplay ⟨3, 3, List.replicate 9 " "⟩
        ⟨PyNum.int 0, PyNum.int 0⟩ ⟨PyNum.int 0, PyNum.int 0⟩ =
      .ok ⟨3, 3, "╝" :: List.replicate 8 " "⟩ ∧
    rectDisplay ⟨10, 10, List.replicate 100 " "⟩
        ⟨PyNum.float (1/2), PyNum.float (1/2)⟩
        ⟨PyNum.float (1/2), PyNum.float (1/2)⟩ = .error () ∧
    (∀ (s : NavState) (k : List Char), s.buttons = [] → navKey s k = s) := by
  refine ⟨?_, ?_, ?_⟩
  · norm_num [rectDisplay, Point.col, Point.row, PyNum.add_def, PyNum.sub_def,
      PyNum.mul_def, PyNum.int, setItemPy, idxPy, pyRange, List.replicate,
      bind, Except.bind, pure, Except.pure, List.foldlM]
  · norm_num [rectDisplay, Point.col, Point.row, PyNum.add_def, PyNum.sub_def,
      PyNum.mul_def, PyNum.int, PyNum.float, setItemPy, idxPy, pyRange,
      bind, Except.bind, pure, Except.pure, List.foldlM]
  · intro s k hbs
    by_cases hk : k = keyUp ∨ k = keyDown ∨ k = keyRight ∨ k = keyLeft
    · cases hfoc : s.focus with
      | none =>
        rw [navKey_arrow_nofocus hk hfoc, hbs]
      | some f =>
        rw [navKey_arrow_focus hk hfoc, hbs, scan_nil, if_neg (by norm_num)]
    · exact navKey_other hk

/-- Non-vacuity witness for C9's zero-button clause: an arrow key on a
button-less screen changes nothing. -/
theorem C9_witness :
    navKey ⟨[.other 7], [], none⟩ keyUp = ⟨[.other 7], [], none⟩ :=
  C9_degenerate_geometry.2.2 ⟨[.other 7], [], none⟩ keyUp rfl
